import Mathlib

/-!
Verification of the vtrim video-header trimmer.

This file gives a shallow embedding of the algorithmic core of `vtrim.py`:
the fingerprint database (load / rewrite), the similarity matcher
(`Configs.isSimilar` with its Hamming-distance threshold), the per-file
cut-point scanner (`findCutPoint`), the orchestration loop over files
(`doCutVideoFiles`), the database builder (`appendSampleVideoToHashDB`)
and the extension filter (`Configs.hasValidExtension` / `getAllVideoFiles`).
External collaborators (video decoding, perceptual hashing, the ffmpeg
extractor, the file system) are abstracted: a decoded video is a list of
(fingerprint, timestamp-ms) pairs in the order the decoder yields them, the
extractor outcome is a boolean, and a directory walk is a list of
(directory, filename) entries.  Theorems after the definitions check the
specification claims against this embedding.
-/

namespace Vtrim

/-- Fuel-indexed bit counting: `popcountFuel f n` sums the binary digits of
`n`, recursing on `n / 2` while the fuel lasts. -/
def popcountFuel : Nat → Nat → Nat
  | 0, _ => 0
  | f + 1, n => if n = 0 then 0 else n % 2 + popcountFuel f (n / 2)

/-- Number of ones in the binary representation of `n`, as computed by
`bin(x).count('1')` in the source; fuel `n` suffices because `n` has at
most `n` binary digits. -/
def popcount (n : Nat) : Nat := popcountFuel n n

/-- Hamming distance between two fingerprints, from `hamming` in vtrim.py:
`bin(a ^ b).count('1')`. -/
def hamming (a b : Nat) : Nat := popcount (a ^^^ b)

/-- Fingerprint width in bits used by the threshold formula, from the
expression `8 * 4` in `Configs.__init__`. -/
def bitWidth : Nat := 8 * 4

/-- Default similarity ratio, from `similarity = 0.8` in `Configs.__init__`. -/
def similarity : ℚ := 0.8

/-- Similarity threshold `__max_hamming_distance`, from
`math.ceil(8 * 4 * (1 - similarity))` in `Configs.__init__`; it is assigned
once there and never reassigned, so it is a constant of the run. -/
def maxHammingDistance : Nat := (Int.ceil ((bitWidth : ℚ) * (1 - similarity))).toNat

/-- Default maximum header window in milliseconds, from
`self.max_header_length_ms = 5 * 60 * 1000`. -/
def defaultMaxHeaderMs : Nat := 5 * 60 * 1000

/-- Membership test `Configs.isSimilar(hashes, hash)` with the threshold
field made an explicit parameter: exact membership first, otherwise a scan
of the set that succeeds on the first member whose Hamming distance to the
candidate is below the threshold.  The Python loop iterates the set in
unspecified order and returns on the first hit, so its value is the
existence of such a member. -/
def isSimilar (thr : Nat) (hashes : Finset Nat) (hash : Nat) : Bool :=
  if hash ∈ hashes then true
  else decide (∃ h ∈ hashes, hamming h hash < thr)

/-- Terminal state of one scan.  The source returns only the timestamp; the
tag records which `break` of the `while` loop in `findCutPoint` fired. -/
inductive ScanTag where
  | frameNovel
  | windowExceeded
  | cancelled
  | streamEnded
  deriving DecidableEq

/-- Inputs of one scan: the similarity threshold, the loaded fingerprint
set, the maximum header window `max_header_length_ms`, and the millisecond
position the decoder reports on the read that fails at end of stream. -/
structure ScanEnv where
  thr : Nat
  hashes : Finset Nat
  maxHeaderMs : Nat
  endMs : Int

/-- Scan loop of `findCutPoint`.  `frames` are the remaining decoded frames
as (fingerprint, timestamp-ms) pairs, `i` is the index of the next poll of
the cancellation flag (`cfg.isCancelled()` is polled once at the top of
every iteration), and `t` is the next sampling instant (initially 1000 ms,
advanced by 1000 at each sampled frame).  Returns the terminal tag, the
returned millisecond value, and the poll index after the loop. -/
def scanLoop (env : ScanEnv) (cancel : Nat → Bool) :
    List (Nat × Nat) → Nat → Nat → ScanTag × Int × Nat
  | [], i, _ =>
    if cancel i then (ScanTag.cancelled, -1, i + 1)
    else (ScanTag.streamEnded, env.endMs, i + 1)
  | (h, ms) :: rest, i, t =>
    if cancel i then (ScanTag.cancelled, -1, i + 1)
    else if env.maxHeaderMs < ms then (ScanTag.windowExceeded, (ms : Int), i + 1)
    else if t ≤ ms then
      if isSimilar env.thr env.hashes h then
        scanLoop env cancel rest (i + 1) (t + 1000)
      else (ScanTag.frameNovel, (ms : Int), i + 1)
    else scanLoop env cancel rest (i + 1) t

/-- Millisecond value returned by `findCutPoint`: the second component of
the instrumented scan loop, started at poll index 0 with `t = 1000`. -/
def findCutPoint (env : ScanEnv) (cancel : Nat → Bool) (frames : List (Nat × Nat)) : Int :=
  (scanLoop env cancel frames 0 1000).2.1

/-- Action taken on one file by `processVideoFile`: either a cut at a start
offset in seconds handed to the extractor, or pass-through unmodified. -/
inductive FileAction where
  | cut (sec : ℚ)
  | pass
  deriving DecidableEq

/-- Decision of `processVideoFile` on the scan result `end`: `end > 3000`
issues a cut at `end / 1000` seconds (the `sec` computed in
`cutOneVideoFile`); otherwise the file is passed through. -/
def fileAction (ms : Int) : FileAction :=
  if 3000 < ms then FileAction.cut ((ms : ℚ) / 1000) else FileAction.pass

/-- Action of `processVideoFile` on a file given its decoded frames. -/
def processAction (env : ScanEnv) (cancel : Nat → Bool) (frames : List (Nat × Nat)) :
    FileAction :=
  fileAction (findCutPoint env cancel frames)

/-- Truthiness of the value `processVideoFile` returns: `True` only when a
cut was issued and the extractor succeeded (`cutOneVideoFile` returns
`True` on success and `None` on extractor failure); a passed-through file
yields `False`. -/
def processSuccess (ms : Int) (extOk : Bool) : Bool :=
  match fileAction ms with
  | FileAction.cut _ => extOk
  | FileAction.pass => false

/-- One resolved source file in cut mode: its decoded frames, the
millisecond position reported at end of stream, and whether the external
extractor would succeed on it. -/
structure VideoFile where
  frames : List (Nat × Nat)
  endMs : Int
  extOk : Bool

/-- File loop of `doCutVideoFiles` over the resolved file list (the two
nested source loops flattened; both poll the cancellation flag before each
file).  State: next poll index `i`, `success` and `fail` tallies, and the
number of files started.  Returns (success, fail, started). -/
def doCutLoop (thr maxHeaderMs : Nat) (hashes : Finset Nat) (cancel : Nat → Bool) :
    List VideoFile → Nat → Nat → Nat → Nat → Nat × Nat × Nat
  | [], _, s, f, st => (s, f, st)
  | v :: rest, i, s, f, st =>
    if cancel i then (s, f, st)
    else
      let r := scanLoop ⟨thr, hashes, maxHeaderMs, v.endMs⟩ cancel v.frames (i + 1) 1000
      if processSuccess r.2.1 v.extOk then
        doCutLoop thr maxHeaderMs hashes cancel rest r.2.2 (s + 1) f (st + 1)
      else
        doCutLoop thr maxHeaderMs hashes cancel rest r.2.2 s (f + 1) (st + 1)

/-- Millisecond bound used by `doAppendHash` in append mode:
`max = cfg.end * 1000` where `cfg.end` is the `-t` value in seconds. -/
def appendMaxMs (endSec : Int) : Int := endSec * 1000

/-- Frame loop of `appendSampleVideoToHashDB`: every decoded frame is
hashed and inserted into the set, stopping at end of stream or at the first
frame whose timestamp exceeds a positive bound `maxMs`. -/
def appendSampleLoop (maxMs : Int) : List (Nat × Nat) → Finset Nat → Finset Nat
  | [], db => db
  | (h, ms) :: rest, db =>
    if 0 < maxMs ∧ maxMs < (ms : Int) then db
    else appendSampleLoop maxMs rest (insert h db)

/-- Decimal line written for one fingerprint by `Configs.appendHashDB`
(`str(hash)` plus a newline), modelled as the list of decimal digits of the
number. -/
def encodeLine (n : Nat) : List Nat := Nat.digits 10 n

/-- Parse of one line by `loadHashDB` (`int(line)`): the number denoted by
the decimal digits. -/
def decodeLine (l : List Nat) : Nat := Nat.ofDigits 10 l

/-- File contents produced by `writeHashDB`: the store is truncated
(`clearHashDB`) and every member of the in-memory set is appended as one
decimal line. -/
def writeHashDB (db : Finset Nat) : List (List Nat) := (db.sort (· ≤ ·)).map encodeLine

/-- Set built by `loadHashDB` from the lines of the store file:
`r.add(int(line))` for each line, starting from the empty set. -/
def loadHashDB (lines : List (List Nat)) : Finset Nat :=
  lines.foldl (fun r line => insert (decodeLine line) r) ∅

/-- Lowercasing `path.lower()`, on paths modelled as character lists. -/
def strLower (s : List Char) : List Char := s.map Char.toLower

/-- Extension filter `Configs.hasValidExtension(path)`: with no configured
allow-list (`exts == None`) every path is accepted; otherwise the lowered
path must end with one of the configured extensions. -/
def hasValidExtension (exts : Option (List (List Char))) (path : List Char) : Bool :=
  match exts with
  | none => true
  | some es => es.any fun e => List.isSuffixOf e (strLower path)

/-- Argument of `getAllVideoFiles`: either a single file path, or a
directory whose recursive walk yields the listed (directory, filename)
entries in order. -/
inductive PathNode where
  | file (path : List Char)
  | dir (entries : List (List Char × List Char))

/-- Path join `os.path.join(currentpath, file)`. -/
def joinPath (d f : List Char) : List Char := d ++ ('/' :: f)

/-- Resolution of one source by `getAllVideoFiles`: a single file is kept
when it passes the extension filter; a directory walk keeps exactly the
walked filenames passing the filter, joined to their directory. -/
def getAllVideoFiles (exts : Option (List (List Char))) : PathNode → List (List Char)
  | PathNode.file p => if hasValidExtension exts p then [p] else []
  | PathNode.dir es =>
      es.filterMap fun e =>
        if hasValidExtension exts e.2 then some (joinPath e.1 e.2) else none

end Vtrim

namespace Vtrim

/-! Helper lemmas shared by the claim theorems. -/

/-- Value of the membership test: the candidate is an exact member, or some
member lies within the Hamming-distance threshold. -/
theorem isSimilar_eq_true_iff (thr : Nat) (hashes : Finset Nat) (c : Nat) :
    isSimilar thr hashes c = true ↔
      c ∈ hashes ∨ ∃ h ∈ hashes, hamming h c < thr := by
  by_cases hc : c ∈ hashes <;> simp [isSimilar, hc]

/-- Against the empty set the membership test always fails. -/
theorem isSimilar_empty_false (thr c : Nat) : isSimilar thr (∅ : Finset Nat) c = false := by
  simp [isSimilar]

/-- Evaluation of the threshold formula at the shipped constants. -/
theorem maxHammingDistance_eq : maxHammingDistance = 7 := by
  have h32 : ((bitWidth : ℚ) * (1 - similarity)) = 32 / 5 := by
    norm_num [bitWidth, similarity]
  have hc : ⌈(32 / 5 : ℚ)⌉ = (7 : ℤ) := by
    rw [Int.ceil_eq_iff]
    norm_num
  rw [maxHammingDistance, h32, hc]
  rfl

/-- A scan whose next cancellation poll already reads true stops at once
with the sentinel result. -/
theorem scanLoop_cancelled_eq (env : ScanEnv) (cancel : Nat → Bool)
    (frames : List (Nat × Nat)) (i t : Nat) (h : cancel i = true) :
    scanLoop env cancel frames i t = (ScanTag.cancelled, -1, i + 1) := by
  cases frames with
  | nil => simp [scanLoop, h]
  | cons a rest => obtain ⟨x, y⟩ := a; simp [scanLoop, h]

/-- Once the cancellation flag reads true at the pre-file poll, the file
loop stops without touching the remaining files. -/
theorem doCutLoop_cancelled_eq (thr maxHeaderMs : Nat) (hashes : Finset Nat)
    (cancel : Nat → Bool) (files : List VideoFile) (i s f st : Nat)
    (h : cancel i = true) :
    doCutLoop thr maxHeaderMs hashes cancel files i s f st = (s, f, st) := by
  cases files with
  | nil => simp [doCutLoop]
  | cons v rest => simp [doCutLoop, h]

/-- Frames earlier than the next sampling instant (and inside the header
window) are read and skipped without being matched, only advancing the
frame position and the poll counter. -/
theorem scanLoop_append_low (env : ScanEnv) (pre rest : List (Nat × Nat)) (i t : Nat)
    (hlow : ∀ p ∈ pre, p.2 < t) (hwin : ∀ p ∈ pre, p.2 ≤ env.maxHeaderMs) :
    scanLoop env (fun _ => false) (pre ++ rest) i t =
      scanLoop env (fun _ => false) rest (i + pre.length) t := by
  induction pre generalizing i with
  | nil => simp
  | cons a pre ih =>
    obtain ⟨h, ms⟩ := a
    have h1 : ¬ t ≤ ms := by
      have := hlow (h, ms) (by simp)
      omega
    have h2 : ¬ env.maxHeaderMs < ms := by
      have := hwin (h, ms) (by simp)
      omega
    have harr : i + 1 + pre.length = i + (pre.length + 1) := by omega
    have hl : ∀ p ∈ pre, p.2 < t := fun p hp => hlow p (by simp [hp])
    have hw : ∀ p ∈ pre, p.2 ≤ env.maxHeaderMs := fun p hp => hwin p (by simp [hp])
    simp only [List.cons_append, scanLoop, Bool.false_eq_true, if_false, h1, h2,
      ite_false, List.length_cons, List.append_eq]
    rw [ih (i + 1) hl hw, harr]

/-! Claim theorems. -/

/-- C2: for every fingerprint set, candidate and threshold, `isSimilar`
returns true if and only if the candidate is an exact member or some member
is at Hamming distance strictly below the threshold, and an exact member is
accepted by the fast path. -/
theorem isSimilar_membership_iff (thr : Nat) (hashes : Finset Nat) (c : Nat) :
    (isSimilar thr hashes c = true ↔
      c ∈ hashes ∨ ∃ h ∈ hashes, hamming h c < thr)
    ∧ (c ∈ hashes → isSimilar thr hashes c = true) :=
  ⟨isSimilar_eq_true_iff thr hashes c, fun h => by simp [isSimilar, h]⟩

/-- Witness for C2 at threshold 0, set {3} and candidate 3. -/
theorem isSimilar_membership_iff_witness :
    (isSimilar 0 {3} 3 = true ↔
      3 ∈ ({3} : Finset Nat) ∨ ∃ h ∈ ({3} : Finset Nat), hamming h 3 < 0)
    ∧ (3 ∈ ({3} : Finset Nat) → isSimilar 0 {3} 3 = true) :=
  isSimilar_membership_iff 0 {3} 3

/-- C9: the membership test is monotonically non-decreasing in the
threshold. -/
theorem isSimilar_monotone_threshold (hashes : Finset Nat) (c t t' : Nat)
    (hle : t ≤ t') (h : isSimilar t hashes c = true) :
    isSimilar t' hashes c = true := by
  rw [isSimilar_eq_true_iff] at h ⊢
  rcases h with hmem | ⟨x, hx, hlt⟩
  · exact Or.inl hmem
  · exact Or.inr ⟨x, hx, lt_of_lt_of_le hlt hle⟩

/-- Witness for C9: accepted at threshold 1, still accepted at threshold 2. -/
theorem isSimilar_monotone_threshold_witness : isSimilar 2 {0} 0 = true :=
  isSimilar_monotone_threshold {0} 0 1 2 (by decide) (by decide)

/-- C6: the similarity threshold is the ceiling of the bit width times one
minus the similarity ratio, a run constant, and it evaluates to 7 at the
shipped bit width (8 * 4) and default ratio 0.8. -/
theorem threshold_formula_value :
    maxHammingDistance = (⌈(bitWidth : ℚ) * (1 - similarity)⌉).toNat
    ∧ maxHammingDistance = 7 :=
  ⟨rfl, maxHammingDistance_eq⟩

/-- C3: in cut mode a cut is issued exactly when the scan result exceeds
3000 ms, at `timestamp / 1000` seconds; at or below 3000 ms the file is
passed through unmodified. -/
theorem cut_decision_iff_above_3000 (env : ScanEnv) (cancel : Nat → Bool)
    (frames : List (Nat × Nat)) :
    ((∃ q, processAction env cancel frames = FileAction.cut q) ↔
      3000 < findCutPoint env cancel frames)
    ∧ (3000 < findCutPoint env cancel frames →
        processAction env cancel frames =
          FileAction.cut ((findCutPoint env cancel frames : ℚ) / 1000))
    ∧ (findCutPoint env cancel frames ≤ 3000 →
        processAction env cancel frames = FileAction.pass) := by
  by_cases h : 3000 < findCutPoint env cancel frames
  · refine ⟨⟨fun _ => h, fun _ => ?_⟩, fun _ => ?_, fun hle => by omega⟩ <;>
      simp [processAction, fileAction, h]
  · refine ⟨⟨?_, fun hlt => absurd hlt h⟩, fun hlt => absurd hlt h, fun _ => ?_⟩
    · rintro ⟨q, hq⟩
      simp [processAction, fileAction, h] at hq
    · simp [processAction, fileAction, h]

/-- Witness for C3: a scan result of 1000 ms on a singleton stream against
an empty database leads to pass-through. -/
theorem cut_decision_iff_above_3000_witness :
    processAction ⟨maxHammingDistance, ∅, defaultMaxHeaderMs, 0⟩ (fun _ => false)
      [(5, 1000)] = FileAction.pass :=
  (cut_decision_iff_above_3000 ⟨maxHammingDistance, ∅, defaultMaxHeaderMs, 0⟩
    (fun _ => false) [(5, 1000)]).2.2 (by decide)


/-- C1: with database {H}, four one-second samples equal to H and a fifth
sample at Hamming distance 10 from H, the scan (with the derived threshold,
which is 7) stops with FrameNovel at 5000 ms, and the orchestrator decision
on that result is a cut at 5000 / 1000 = 5 seconds. -/
theorem scenarioB_cut_at_five_seconds (H H' : Nat) (rest : List (Nat × Nat))
    (endMs : Int) (hd : hamming H H' = 10) :
    scanLoop ⟨maxHammingDistance, {H}, defaultMaxHeaderMs, endMs⟩ (fun _ => false)
        ([(H, 1000), (H, 2000), (H, 3000), (H, 4000), (H', 5000)] ++ rest) 0 1000
      = (ScanTag.frameNovel, 5000, 5)
    ∧ fileAction 5000 = FileAction.cut 5 := by
  have h7 := maxHammingDistance_eq
  have hne : H' ≠ H := by
    intro e
    rw [e] at hd
    simp [hamming, Nat.xor_self, popcount, popcountFuel] at hd
  have hH : isSimilar maxHammingDistance {H} H = true := by
    simp [isSimilar]
  have hH' : isSimilar maxHammingDistance {H} H' = false := by
    simp [isSimilar, hne, hd, h7]
  refine ⟨?_, by norm_num [fileAction]⟩
  simp [scanLoop, hH, hH', defaultMaxHeaderMs]

/-- Witness for C1 with H = 0 and H' = 1023 (Hamming distance 10). -/
theorem scenarioB_cut_at_five_seconds_witness :
    scanLoop ⟨maxHammingDistance, {0}, defaultMaxHeaderMs, 0⟩ (fun _ => false)
        ([(0, 1000), (0, 2000), (0, 3000), (0, 4000), (1023, 5000)] ++ []) 0 1000
      = (ScanTag.frameNovel, 5000, 5)
    ∧ fileAction 5000 = FileAction.cut 5 :=
  scenarioB_cut_at_five_seconds 0 1023 [] 0 (by decide)

/-- C4 counterexample: cancellation arriving between the pre-file poll and
the first in-scan poll makes the scan return the sentinel, but the file is
tallied in the failure / skip count (fail = 1), not excluded from it. -/
theorem cancelled_scan_counted_cex :
    doCutLoop 7 300000 (∅ : Finset Nat) (fun j => decide (1 ≤ j))
        [⟨[(0, 1000)], 0, true⟩, ⟨[], 0, true⟩] 0 0 0 0 = (0, 1, 1)
    ∧ (doCutLoop 7 300000 (∅ : Finset Nat) (fun j => decide (1 ≤ j))
        [⟨[(0, 1000)], 0, true⟩, ⟨[], 0, true⟩] 0 0 0 0).2.1 ≠ 0 := by
  refine ⟨by decide, by decide⟩

/-- C4 amended: when cancellation is requested mid-scan (flag still false
at the pre-file poll, true at the first in-scan poll, and sticky once set),
the scanner returns the Cancelled sentinel -1, the file is not counted as
a success but is counted in the failure / skip tally, and no further file
is started. -/
theorem cancelled_scan_amended (thr maxHeaderMs : Nat) (hashes : Finset Nat)
    (cancel : Nat → Bool) (v : VideoFile) (rest : List VideoFile) (i s f st : Nat)
    (hmono : ∀ a b : Nat, a ≤ b → cancel a = true → cancel b = true)
    (h0 : cancel i = false) (h1 : cancel (i + 1) = true) :
    scanLoop ⟨thr, hashes, maxHeaderMs, v.endMs⟩ cancel v.frames (i + 1) 1000
      = (ScanTag.cancelled, -1, i + 1 + 1)
    ∧ doCutLoop thr maxHeaderMs hashes cancel (v :: rest) i s f st
      = (s, f + 1, st + 1) := by
  have hscan := scanLoop_cancelled_eq ⟨thr, hashes, maxHeaderMs, v.endMs⟩
    cancel v.frames (i + 1) 1000 h1
  refine ⟨hscan, ?_⟩
  have h2 : cancel (i + 1 + 1) = true := hmono (i + 1) (i + 1 + 1) (by omega) h1
  simp only [doCutLoop, h0, Bool.false_eq_true, if_false, hscan]
  have hps : processSuccess (-1) v.extOk = false := by
    simp [processSuccess, fileAction]
  simp only [hps, Bool.false_eq_true, if_false]
  exact doCutLoop_cancelled_eq thr maxHeaderMs hashes cancel rest (i + 1 + 1)
    s (f + 1) (st + 1) h2

/-- Witness for C4 amended: one file of one frame, cancellation at poll 1,
one further file never started. -/
theorem cancelled_scan_amended_witness :
    scanLoop ⟨7, (∅ : Finset Nat), 300000, (⟨[(0, 1000)], 0, true⟩ : VideoFile).endMs⟩
        (fun j => decide (1 ≤ j)) (⟨[(0, 1000)], 0, true⟩ : VideoFile).frames (0 + 1) 1000
      = (ScanTag.cancelled, -1, 0 + 1 + 1)
    ∧ doCutLoop 7 300000 (∅ : Finset Nat) (fun j => decide (1 ≤ j))
        [⟨[(0, 1000)], 0, true⟩, ⟨[], 0, true⟩] 0 0 0 0 = (0, 0 + 1, 0 + 1) :=
  cancelled_scan_amended 7 300000 ∅ (fun j => decide (1 ≤ j))
    ⟨[(0, 1000)], 0, true⟩ [⟨[], 0, true⟩] 0 0 0 0
    (fun a b hab ha => by
      simp only [decide_eq_true_eq] at ha ⊢
      omega)
    (by decide) (by decide)

/-- C5 counterexample: a non-empty stream whose single frame is at 0 ms
never reaches a sampling instant; against the empty database the scan ends
with StreamEnded at the end-of-stream position, not FrameNovel at 1000 ms. -/
theorem empty_db_scan_cex :
    scanLoop ⟨maxHammingDistance, (∅ : Finset Nat), defaultMaxHeaderMs, 100⟩
        (fun _ => false) [(5, 0)] 0 1000 = (ScanTag.streamEnded, 100, 2)
    ∧ (scanLoop ⟨maxHammingDistance, (∅ : Finset Nat), defaultMaxHeaderMs, 100⟩
        (fun _ => false) [(5, 0)] 0 1000).1 ≠ ScanTag.frameNovel := by
  refine ⟨by decide, by decide⟩

/-- C5 amended: against an empty database, a stream whose frames before the
first sampling instant are all earlier than 1000 ms and which does contain
a frame at exactly 1000 ms stops with FrameNovel at 1000 ms (the first
sample is never known against an empty set). -/
theorem empty_db_scan_amended (pre rest : List (Nat × Nat)) (h : Nat) (endMs : Int)
    (hlow : ∀ p ∈ pre, p.2 < 1000) :
    scanLoop ⟨maxHammingDistance, (∅ : Finset Nat), defaultMaxHeaderMs, endMs⟩
        (fun _ => false) (pre ++ (h, 1000) :: rest) 0 1000
      = (ScanTag.frameNovel, 1000, pre.length + 1) := by
  rw [scanLoop_append_low _ pre _ 0 1000 hlow
    (fun p hp => by
      have := hlow p hp
      simp only [defaultMaxHeaderMs]
      omega)]
  simp [scanLoop, isSimilar, defaultMaxHeaderMs]

/-- Witness for C5 amended: the one-frame stream [(5, 1000)]. -/
theorem empty_db_scan_amended_witness :
    scanLoop ⟨maxHammingDistance, (∅ : Finset Nat), defaultMaxHeaderMs, 0⟩
        (fun _ => false) ([] ++ (5, 1000) :: []) 0 1000
      = (ScanTag.frameNovel, 1000, List.length ([] : List (Nat × Nat)) + 1) :=
  empty_db_scan_amended [] [] 5 0 (by simp)


/-- Every element of the set built by the append frame loop with a positive
bound was already present or is the fingerprint of a frame whose timestamp
is within the bound. -/
theorem appendSampleLoop_mem (maxMs : Int) (frames : List (Nat × Nat))
    (db : Finset Nat) (x : Nat) (hpos : 0 < maxMs)
    (hx : x ∈ appendSampleLoop maxMs frames db) :
    x ∈ db ∨ ∃ p ∈ frames, p.1 = x ∧ (p.2 : Int) ≤ maxMs := by
  induction frames generalizing db with
  | nil =>
    simp only [appendSampleLoop] at hx
    exact Or.inl hx
  | cons a rest ih =>
    obtain ⟨h, ms⟩ := a
    by_cases hc : maxMs < (ms : Int)
    · simp only [appendSampleLoop, if_pos (And.intro hpos hc)] at hx
      exact Or.inl hx
    · simp only [appendSampleLoop, hc, and_false, if_false] at hx
      rcases ih (insert h db) hx with hin | ⟨p, hp, he, hle⟩
      · rcases Finset.mem_insert.1 hin with hxh | hdb
        · exact Or.inr ⟨(h, ms), by simp, hxh.symm, by omega⟩
        · exact Or.inl hdb
      · exact Or.inr ⟨p, by simp [hp], he, hle⟩

/-- C7: in append mode with a 5-second bound, every member of the resulting
set was already in the database or is the fingerprint of a frame whose
timestamp is at most 5000 ms; no later frame contributes. -/
theorem append_bounded_only_early_frames (frames : List (Nat × Nat))
    (db : Finset Nat) (x : Nat)
    (hx : x ∈ appendSampleLoop (appendMaxMs 5) frames db) :
    x ∈ db ∨ ∃ p ∈ frames, p.1 = x ∧ p.2 ≤ 5000 := by
  rcases appendSampleLoop_mem (appendMaxMs 5) frames db x (by norm_num [appendMaxMs]) hx
    with hdb | ⟨p, hp, he, hle⟩
  · exact Or.inl hdb
  · refine Or.inr ⟨p, hp, he, ?_⟩
    have h5 : appendMaxMs 5 = 5000 := by norm_num [appendMaxMs]
    rw [h5] at hle
    exact_mod_cast hle

/-- Witness for C7: frames at 1000 ms and 6000 ms; the early fingerprint 1
is in the result and indeed comes from the frame at 1000 ms. -/
theorem append_bounded_only_early_frames_witness :
    (1 : Nat) ∈ (∅ : Finset Nat)
    ∨ ∃ p ∈ [((1 : Nat), (1000 : Nat)), (2, 6000)], p.1 = 1 ∧ p.2 ≤ 5000 :=
  append_bounded_only_early_frames [(1, 1000), (2, 6000)] ∅ 1 (by decide)

/-- Membership in the set folded up by `loadHashDB` from a list of lines. -/
theorem mem_loadHashDB_foldl (lines : List (List Nat)) (init : Finset Nat) (x : Nat) :
    x ∈ lines.foldl (fun r line => insert (decodeLine line) r) init ↔
      x ∈ init ∨ ∃ l ∈ lines, decodeLine l = x := by
  induction lines generalizing init with
  | nil => simp
  | cons a ls ih =>
    simp only [List.foldl_cons]
    rw [ih]
    constructor
    · rintro (hini | ⟨l, hl, hd⟩)
      · rcases Finset.mem_insert.1 hini with he | hi
        · exact Or.inr ⟨a, List.mem_cons_self a ls, he.symm⟩
        · exact Or.inl hi
      · exact Or.inr ⟨l, List.mem_cons_of_mem a hl, hd⟩
    · rintro (hi | ⟨l, hl, hd⟩)
      · exact Or.inl (Finset.mem_insert_of_mem hi)
      · rcases List.mem_cons.1 hl with rfl | hls
        · exact Or.inl (by rw [← hd]; exact Finset.mem_insert_self _ _)
        · exact Or.inr ⟨l, hls, hd⟩

/-- C8: persisting a fingerprint set with `writeHashDB` (truncate, then one
decimal line per member) and loading the file back with `loadHashDB` yields
exactly the original set. -/
theorem hashdb_roundtrip (db : Finset Nat) : loadHashDB (writeHashDB db) = db := by
  ext x
  rw [loadHashDB, mem_loadHashDB_foldl]
  simp [writeHashDB, encodeLine, decodeLine, Nat.ofDigits_digits, Finset.mem_sort]

/-- C10: the extension filter accepts everything when no allow-list is
configured; with a configured list it accepts exactly the paths whose
lowercased form ends with one of the configured extensions; and both the
single-file branch and the directory-walk branch of `getAllVideoFiles` keep
exactly the paths accepted by the filter. -/
theorem extension_filter_spec :
    (∀ p : List Char, hasValidExtension none p = true)
    ∧ (∀ (es : List (List Char)) (p : List Char),
        hasValidExtension (some es) p = true ↔
          ∃ e ∈ es, List.isSuffixOf e (strLower p) = true)
    ∧ (∀ (exts : Option (List (List Char))) (p : List Char),
        p ∈ getAllVideoFiles exts (PathNode.file p) ↔ hasValidExtension exts p = true)
    ∧ (∀ (exts : Option (List (List Char))) (es : List (List Char × List Char))
        (q : List Char),
        q ∈ getAllVideoFiles exts (PathNode.dir es) ↔
          ∃ e ∈ es, hasValidExtension exts e.2 = true ∧ q = joinPath e.1 e.2) := by
  refine ⟨fun p => rfl, fun es p => ?_, fun exts p => ?_, fun exts es q => ?_⟩
  · simp [hasValidExtension]
  · by_cases h : hasValidExtension exts p <;> simp [getAllVideoFiles, h]
  · simp only [getAllVideoFiles, List.mem_filterMap]
    constructor
    · rintro ⟨e, he, hq⟩
      by_cases hv : hasValidExtension exts e.2
      · rw [if_pos hv] at hq
        exact ⟨e, he, hv, (Option.some_inj.1 hq).symm⟩
      · rw [if_neg hv] at hq
        cases hq
    · rintro ⟨e, he, hv, rfl⟩
      exact ⟨e, he, by rw [if_pos hv]⟩

/-- Witness for C10: with no configured allow-list the empty path passes. -/
theorem extension_filter_spec_witness : hasValidExtension none [] = true :=
  extension_filter_spec.1 []

end Vtrim
